import Mathlib

/-!
Verification of the dreamdocs document-conversion core against its
natural-language specification.

The development shallowly embeds the two source modules the claims touch:

* `src/server/services/markdown.ts` — slugify, TOC/title extraction from a
  markdown-it token stream, and `parseMarkdown`;
* `src/server/services/notion.ts` — page-id extraction, paginated block
  fetching, block-tree linearization to markdown, table rendering and
  rich-text composition.

JavaScript strings are modelled as `List Char` (wrapped in `String` at the
boundaries); regex character classes are modelled by explicit code-point
predicates, matching the code-point semantics of the JS regexes involved.
Behaviour of third-party collaborators that is not part of the repository
(the markdown-it tokenizer and the markdown-it-anchor id assignment) is
modelled from the spec and marked as such in the corresponding doc comments.
-/

/-! ## JS character classes and string helpers -/

/-- The JS regex class `\s` (and the set removed by `String.prototype.trim`):
space, tab, LF, VT, FF, CR, NBSP, and the Unicode space separators,
line/paragraph separators, narrow NBSP, medium mathematical space,
ideographic space and BOM, given by code point. -/
def jsIsSpace (c : Char) : Bool :=
  c.toNat = 32 || c.toNat = 9 || c.toNat = 10 || c.toNat = 11 ||
  c.toNat = 12 || c.toNat = 13 || c.toNat = 160 || c.toNat = 0x1680 ||
  (0x2000 ≤ c.toNat && c.toNat ≤ 0x200a) || c.toNat = 0x2028 ||
  c.toNat = 0x2029 || c.toNat = 0x202f || c.toNat = 0x205f ||
  c.toNat = 0x3000 || c.toNat = 0xfeff

/-- The JS regex class `\w`: `[A-Za-z0-9_]`, by code point. -/
def jsIsWordChar (c : Char) : Bool :=
  (65 ≤ c.toNat && c.toNat ≤ 90) || (97 ≤ c.toNat && c.toNat ≤ 122) ||
  (48 ≤ c.toNat && c.toNat ≤ 57) || c.toNat = 95

/-- JS `String.prototype.toLowerCase`, restricted to its ASCII action
(`A`–`Z` map to `a`–`z`, every other code point is returned unchanged).
The full Unicode lowering only differs outside the ASCII range, and every
lemma below uses only the ASCII action and the fact that no character is
mapped into `A`–`Z`. -/
def jsToLower (c : Char) : Char :=
  if 65 ≤ c.toNat && c.toNat ≤ 90 then Char.ofNat (c.toNat + 32) else c

/-- JS `String.prototype.trim` on a character list: drop `\s` characters
from both ends. -/
def jsTrim (l : List Char) : List Char :=
  ((l.dropWhile jsIsSpace).reverse.dropWhile jsIsSpace).reverse

/-- JS `replace(/[\s]+/g, '-')`: each maximal run of whitespace becomes a
single `-`.  The boolean argument records whether the previous character
was part of a whitespace run. -/
def collapseWsAux : Bool → List Char → List Char
  | _, [] => []
  | inRun, c :: cs =>
    if jsIsSpace c then
      if inRun then collapseWsAux true cs else '-' :: collapseWsAux true cs
    else c :: collapseWsAux false cs

/-- JS `replace(/[\s]+/g, '-')` on a character list. -/
def collapseWs (l : List Char) : List Char := collapseWsAux false l

/-- JS `replace(/[^\w-]/g, '')`: keep only word characters and hyphens
(code point 45 is `-`). -/
def stripNonWord (l : List Char) : List Char :=
  l.filter fun c => jsIsWordChar c || c.toNat = 45

/-- The slugify chain of `src/server/services/markdown.ts:28-33` (the
function configured on the anchor plugin):
`s.toLowerCase().trim().replace(/[\s]+/g, '-').replace(/[^\w-]/g, '')`,
at the character-list level. -/
def slugifyL (l : List Char) : List Char :=
  stripNonWord (collapseWs (jsTrim (l.map jsToLower)))

/-- Function `slugify` from `src/server/services/markdown.ts:28-33`. -/
def slugify (s : String) : String := String.mk (slugifyL s.data)

/-! ### Character-class facts -/

/-- Characters that can appear in a slug: `a`–`z`, `0`–`9`, `_`, `-`. -/
def slugChar (c : Char) : Bool :=
  (97 ≤ c.toNat && c.toNat ≤ 122) || (48 ≤ c.toNat && c.toNat ≤ 57) ||
  c.toNat = 95 || c.toNat = 45

theorem slugChar_iff {c : Char} : slugChar c = true ↔
    (97 ≤ c.toNat ∧ c.toNat ≤ 122) ∨ (48 ≤ c.toNat ∧ c.toNat ≤ 57) ∨
    c.toNat = 95 ∨ c.toNat = 45 := by
  simp [slugChar, Bool.or_eq_true, Bool.and_eq_true, decide_eq_true_eq, or_assoc]

theorem jsIsSpace_eq_false_of_slugChar {c : Char} (h : slugChar c = true) :
    jsIsSpace c = false := by
  have h' := slugChar_iff.mp h
  simp only [jsIsSpace, Bool.or_eq_false_iff, Bool.and_eq_false_iff,
    decide_eq_false_iff_not, not_le]
  omega

theorem jsToLower_eq_self_of_slugChar {c : Char} (h : slugChar c = true) :
    jsToLower c = c := by
  have h' := slugChar_iff.mp h
  unfold jsToLower
  have : (65 ≤ c.toNat && c.toNat ≤ 90) = false := by
    simp only [Bool.and_eq_false_iff, decide_eq_false_iff_not, not_le]
    omega
  simp [this]

theorem keep_of_slugChar {c : Char} (h : slugChar c = true) :
    (jsIsWordChar c || c.toNat = 45) = true := by
  have h' := slugChar_iff.mp h
  simp only [jsIsWordChar, Bool.or_eq_true, Bool.and_eq_true, decide_eq_true_eq]
  omega

/-- On the ASCII uppercase range, `Char.ofNat` of the shifted code point has
that code point (checked by evaluation over the 26 relevant values). -/
theorem ofNat_add32_toNat : ∀ n, n < 91 → 65 ≤ n →
    (Char.ofNat (n + 32)).toNat = n + 32 := by decide

/-- Lowering by `jsToLower` never produces an uppercase ASCII letter. -/
theorem jsToLower_not_upper (c : Char) :
    ¬ (65 ≤ (jsToLower c).toNat ∧ (jsToLower c).toNat ≤ 90) := by
  unfold jsToLower
  by_cases h : (65 ≤ c.toNat && c.toNat ≤ 90) = true
  · have hb : 65 ≤ c.toNat ∧ c.toNat ≤ 90 := by
      simpa [Bool.and_eq_true, decide_eq_true_eq] using h
    have hv := ofNat_add32_toNat c.toNat (by omega) (by omega)
    simp only [h, if_true]
    omega
  · have hb : ¬ (65 ≤ c.toNat ∧ c.toNat ≤ 90) := by
      intro hc
      exact h (by simp only [Bool.and_eq_true, decide_eq_true_eq]; omega)
    simp only [h, if_false]
    exact hb

/-! ### Every character of a slug is a slug character -/

theorem mem_collapseWsAux {c : Char} {b : Bool} {l : List Char}
    (h : c ∈ collapseWsAux b l) : c = '-' ∨ c ∈ l := by
  induction l generalizing b with
  | nil => simp [collapseWsAux] at h
  | cons d ds ih =>
    by_cases hd : jsIsSpace d = true
    · by_cases hb : b = true
      · subst hb
        simp only [collapseWsAux, hd, if_true] at h
        rcases ih h with h' | h'
        · exact Or.inl h'
        · exact Or.inr (List.mem_cons_of_mem _ h')
      · have hb' : b = false := by cases b <;> simp_all
        subst hb'
        simp only [collapseWsAux, hd, if_true] at h
        rcases List.mem_cons.mp h with h' | h'
        · exact Or.inl h'
        · rcases ih h' with h'' | h''
          · exact Or.inl h''
          · exact Or.inr (List.mem_cons_of_mem _ h'')
    · have hd' : jsIsSpace d = false := by cases hji : jsIsSpace d <;> simp_all
      simp only [collapseWsAux, hd', Bool.false_eq_true, if_false] at h
      rcases List.mem_cons.mp h with h' | h'
      · exact Or.inr (h' ▸ List.mem_cons_self _ _)
      · rcases ih h' with h'' | h''
        · exact Or.inl h''
        · exact Or.inr (List.mem_cons_of_mem _ h'')

theorem mem_of_mem_jsTrim {c : Char} {l : List Char} (h : c ∈ jsTrim l) :
    c ∈ l := by
  unfold jsTrim at h
  rw [List.mem_reverse] at h
  have h1 := (List.dropWhile_sublist (l := (l.dropWhile jsIsSpace).reverse)
    (p := jsIsSpace)).mem h
  rw [List.mem_reverse] at h1
  exact (List.dropWhile_sublist (l := l) (p := jsIsSpace)).mem h1

theorem slugChar_of_mem_slugifyL {c : Char} {l : List Char}
    (h : c ∈ slugifyL l) : slugChar c = true := by
  unfold slugifyL stripNonWord at h
  have hmem := List.mem_filter.mp h
  obtain ⟨hin, hkeep⟩ := hmem
  have hnotupper : ¬ (65 ≤ c.toNat ∧ c.toNat ≤ 90) := by
    rcases mem_collapseWsAux hin with hc | hc
    · subst hc; decide
    · have : c ∈ l.map jsToLower := mem_of_mem_jsTrim hc
      obtain ⟨d, _, hd⟩ := List.mem_map.mp this
      subst hd
      exact jsToLower_not_upper d
  rw [slugChar_iff]
  simp only [jsIsWordChar, Bool.or_eq_true, Bool.and_eq_true,
    decide_eq_true_eq] at hkeep
  omega

/-! ### `slugifyL` is the identity on slug-character lists -/

theorem dropWhile_eq_self_of_all {p : Char → Bool} {l : List Char}
    (h : ∀ c ∈ l, p c = false) : l.dropWhile p = l := by
  cases l with
  | nil => rfl
  | cons c cs =>
    rw [List.dropWhile_cons_of_neg]
    simp [h c (List.mem_cons_self _ _)]

theorem jsTrim_eq_self_of_all {l : List Char}
    (h : ∀ c ∈ l, jsIsSpace c = false) : jsTrim l = l := by
  unfold jsTrim
  rw [dropWhile_eq_self_of_all h]
  rw [dropWhile_eq_self_of_all (by intro c hc; exact h c (List.mem_reverse.mp hc))]
  exact List.reverse_reverse l

theorem collapseWsAux_eq_self_of_all {b : Bool} {l : List Char}
    (h : ∀ c ∈ l, jsIsSpace c = false) : collapseWsAux b l = l := by
  induction l generalizing b with
  | nil => rfl
  | cons c cs ih =>
    simp only [collapseWsAux, h c (List.mem_cons_self _ _), Bool.false_eq_true,
      if_false]
    rw [ih (fun d hd => h d (List.mem_cons_of_mem _ hd))]

theorem slugifyL_eq_self_of_all {l : List Char}
    (h : ∀ c ∈ l, slugChar c = true) : slugifyL l = l := by
  unfold slugifyL
  have hlower : l.map jsToLower = l := by
    rw [List.map_congr_left (fun c hc => jsToLower_eq_self_of_slugChar (h c hc))]
    exact List.map_id l
  rw [hlower]
  have hnospace : ∀ c ∈ l, jsIsSpace c = false :=
    fun c hc => jsIsSpace_eq_false_of_slugChar (h c hc)
  rw [jsTrim_eq_self_of_all hnospace]
  unfold collapseWs
  rw [collapseWsAux_eq_self_of_all hnospace]
  unfold stripNonWord
  exact List.filter_eq_self.mpr (fun c hc => keep_of_slugChar (h c hc))

/-- C9 — The slugify function is idempotent: for every input string `s`,
`slugify (slugify s) = slugify s`, where slugify lowercases, trims,
collapses whitespace runs to `-` and strips all characters other than word
characters and hyphens. -/
theorem slugify_idempotent (s : String) : slugify (slugify s) = slugify s := by
  unfold slugify
  have : (String.mk (slugifyL s.data)).data = slugifyL s.data := rfl
  rw [this]
  rw [slugifyL_eq_self_of_all (fun c hc => slugChar_of_mem_slugifyL hc)]

/-! ## Page-id extraction (`src/server/services/notion.ts:39-61`) -/

/-- The `/i`-flagged regex class `[a-f0-9]`: digits, `a`–`f`, `A`–`F`,
by code point. -/
def isHexChar (c : Char) : Bool :=
  (48 ≤ c.toNat && c.toNat ≤ 57) || (97 ≤ c.toNat && c.toNat ≤ 102) ||
  (65 ≤ c.toNat && c.toNat ≤ 70)

/-- Attempt of `([a-f0-9]{32})(?:\?|$)` at the start of `l`: exactly 32 hex
characters followed by `?` or the end of the input. -/
def matchHex32At (l : List Char) : Option (List Char) :=
  if (l.take 32).length = 32 && (l.take 32).all isHexChar then
    match l.drop 32 with
    | [] => some (l.take 32)
    | c :: _ => if c = '?' then some (l.take 32) else none
  else none

/-- Attempt of `([a-f0-9-]{36})(?:\?|$)` at the start of `l`: exactly 36
hex-or-hyphen characters followed by `?` or the end of the input. -/
def matchHexDash36At (l : List Char) : Option (List Char) :=
  if (l.take 36).length = 36 && (l.take 36).all (fun c => isHexChar c || c.toNat = 45) then
    match l.drop 36 with
    | [] => some (l.take 36)
    | c :: _ => if c = '?' then some (l.take 36) else none
  else none

/-- JS `String.prototype.match` with a non-global regex: try the pattern at
every position left to right and return the first capture, or `null`. -/
def findMatch (f : List Char → Option (List Char)) : List Char → Option (List Char)
  | [] => f []
  | c :: rest =>
    match f (c :: rest) with
    | some r => some r
    | none => findMatch f rest

/-- Function `extractPageId` from `src/server/services/notion.ts:39-61`: strip the
hyphens and accept an exact 32-hex id; otherwise search for a 32-hex run
ending at `?` or end of input; otherwise search for a 36-character
hex-or-hyphen run ending at `?` or end of input and strip its hyphens. -/
def extractPageId (urlOrId : String) : Option String :=
  let cleanId := urlOrId.data.filter fun c => decide (c.toNat ≠ 45)
  if cleanId.length = 32 && cleanId.all isHexChar then
    some (String.mk cleanId)
  else
    match findMatch matchHex32At urlOrId.data with
    | some m => some (String.mk m)
    | none =>
      match findMatch matchHexDash36At urlOrId.data with
      | some m => some (String.mk (m.filter fun c => decide (c.toNat ≠ 45)))
      | none => none

/-- A bare page id: exactly 32 hex characters. -/
def isBare32Hex (l : List Char) : Prop :=
  l.length = 32 ∧ ∀ c ∈ l, isHexChar c = true

instance (l : List Char) : Decidable (isBare32Hex l) := by
  unfold isBare32Hex; infer_instance

theorem findMatch_ne_none {f : List Char → Option (List Char)}
    {l l' : List Char} (hsuf : l' <:+ l) (hf : f l' ≠ none) :
    findMatch f l ≠ none := by
  induction l with
  | nil =>
    rw [List.suffix_nil.mp hsuf] at hf
    simpa [findMatch] using hf
  | cons c rest ih =>
    rcases List.suffix_cons_iff.mp hsuf with h | h
    · subst h
      simp only [findMatch]
      cases hm : f (c :: rest) with
      | some r => simp
      | none => exact absurd hm hf
    · simp only [findMatch]
      cases hm : f (c :: rest) with
      | some r => simp
      | none => exact ih h

theorem findMatch_eq_none {f : List Char → Option (List Char)}
    {l : List Char} (h : findMatch f l = none) :
    ∀ l', l' <:+ l → f l' = none := by
  intro l' hsuf
  by_cases hf : f l' = none
  · exact hf
  · exact absurd h (findMatch_ne_none hsuf hf)

theorem findMatch_eq_some {f : List Char → Option (List Char)}
    {l m : List Char} (h : findMatch f l = some m) :
    ∃ l', l' <:+ l ∧ f l' = some m := by
  induction l with
  | nil => exact ⟨[], List.nil_suffix, by simpa [findMatch] using h⟩
  | cons c rest ih =>
    simp only [findMatch] at h
    cases hm : f (c :: rest) with
    | some r =>
      rw [hm] at h
      have h' : some r = some m := h
      exact ⟨c :: rest, List.suffix_refl _, by rw [hm]; exact h'⟩
    | none =>
      rw [hm] at h
      have h' : findMatch f rest = some m := h
      obtain ⟨l', hsuf, hl'⟩ := ih h'
      exact ⟨l', hsuf.trans (List.suffix_cons c rest), hl'⟩

theorem matchHex32At_some {l m : List Char} (h : matchHex32At l = some m) :
    m.length = 32 ∧ ∀ c ∈ m, isHexChar c = true := by
  unfold matchHex32At at h
  split at h
  case isTrue hc =>
    rw [Bool.and_eq_true, decide_eq_true_eq, List.all_eq_true] at hc
    have hm : m = l.take 32 := by
      cases hd : l.drop 32 with
      | nil => rw [hd] at h; exact (Option.some.inj h).symm
      | cons d ds =>
        rw [hd] at h
        have h' : (if d = '?' then some (l.take 32) else none) = some m := h
        by_cases hq : d = '?'
        · rw [if_pos hq] at h'
          exact (Option.some.inj h').symm
        · rw [if_neg hq] at h'
          simp at h'
    subst hm
    exact ⟨hc.1, hc.2⟩
  case isFalse hc => simp at h

theorem matchHexDash36At_some {l m : List Char} (h : matchHexDash36At l = some m) :
    ∀ c ∈ m, (isHexChar c || c.toNat = 45) = true := by
  unfold matchHexDash36At at h
  split at h
  case isTrue hc =>
    rw [Bool.and_eq_true, decide_eq_true_eq, List.all_eq_true] at hc
    have hm : m = l.take 36 := by
      cases hd : l.drop 36 with
      | nil => rw [hd] at h; exact (Option.some.inj h).symm
      | cons d ds =>
        rw [hd] at h
        have h' : (if d = '?' then some (l.take 36) else none) = some m := h
        by_cases hq : d = '?'
        · rw [if_pos hq] at h'
          exact (Option.some.inj h').symm
        · rw [if_neg hq] at h'
          simp at h'
    subst hm
    exact hc.2
  case isFalse hc => simp at h

theorem isHexChar_ne_45 {c : Char} (h : isHexChar c = true) : c.toNat ≠ 45 := by
  simp only [isHexChar, Bool.or_eq_true, Bool.and_eq_true, decide_eq_true_eq] at h
  omega

/-- Appending strings appends their character lists. -/
theorem string_data_append (a b : String) : (a ++ b).data = a.data ++ b.data := rfl

theorem string_mk_data (s : String) : String.mk s.data = s := rfl

/-- If the hyphen-stripped input is a bare 32-hex id, the first branch of
`extractPageId` fires and returns it. -/
theorem extractPageId_of_clean {s : String}
    (h : isBare32Hex (s.data.filter fun c => decide (c.toNat ≠ 45))) :
    extractPageId s = some (String.mk (s.data.filter fun c => decide (c.toNat ≠ 45))) := by
  unfold extractPageId
  have hcond : ((s.data.filter fun c => decide (c.toNat ≠ 45)).length = 32 &&
      (s.data.filter fun c => decide (c.toNat ≠ 45)).all isHexChar) = true := by
    rw [Bool.and_eq_true, decide_eq_true_eq, List.all_eq_true]
    exact ⟨h.1, h.2⟩
  simp only [hcond, if_true]

theorem matchHex32At_bare {l : List Char} (h : isBare32Hex l) :
    matchHex32At l = some l := by
  have ht : l.take 32 = l := List.take_of_length_le (le_of_eq h.1)
  have hd : l.drop 32 = [] := List.drop_eq_nil_of_le (le_of_eq h.1)
  have hcond : ((l.take 32).length = 32 && (l.take 32).all isHexChar) = true := by
    rw [ht, Bool.and_eq_true, decide_eq_true_eq, List.all_eq_true]
    exact ⟨h.1, h.2⟩
  unfold matchHex32At
  rw [hcond, hd, if_pos rfl, ht]

theorem matchHex32At_query {l q : List Char} (h : isBare32Hex l) :
    matchHex32At (l ++ '?' :: q) = some l := by
  have ht : (l ++ '?' :: q).take 32 = l := by
    rw [← h.1]; exact List.take_left _ _
  have hd : (l ++ '?' :: q).drop 32 = '?' :: q := by
    rw [← h.1]; exact List.drop_left _ _
  have hcond : (((l ++ '?' :: q).take 32).length = 32 &&
      ((l ++ '?' :: q).take 32).all isHexChar) = true := by
    rw [ht, Bool.and_eq_true, decide_eq_true_eq, List.all_eq_true]
    exact ⟨h.1, h.2⟩
  unfold matchHex32At
  rw [hcond, hd, if_pos rfl]
  rw [ht]
  simp

theorem extractPageId_ne_none_of_suffix {s : String} {l' : List Char}
    (hsuf : l' <:+ s.data) (hm : matchHex32At l' ≠ none) :
    extractPageId s ≠ none := by
  intro hnone
  simp only [extractPageId] at hnone
  split at hnone
  · exact Option.noConfusion hnone
  · cases hfm : findMatch matchHex32At s.data with
    | some m => rw [hfm] at hnone; exact Option.noConfusion hnone
    | none => exact hm (findMatch_eq_none hfm l' hsuf)

/-- Acceptance of a bare 32-hex id: the hyphen strip is a no-op and the
first branch of `extractPageId` fires. -/
theorem extractPageId_bare {s : String} (h : isBare32Hex s.data) :
    extractPageId s = some s := by
  have hfilter : (s.data.filter fun c => decide (c.toNat ≠ 45)) = s.data :=
    List.filter_eq_self.mpr fun c hc => by
      simpa using isHexChar_ne_45 (h.2 c hc)
  have hbare : isBare32Hex (s.data.filter fun c => decide (c.toNat ≠ 45)) := by
    rw [hfilter]; exact h
  have hres := extractPageId_of_clean hbare
  rw [hfilter, string_mk_data] at hres
  exact hres

/-- Acceptance of a canonically dashed (8-4-4-4-12) id: the hyphen strip
leaves the 32 hex characters and the first branch of `extractPageId`
fires. -/
theorem extractPageId_dashed {s : String} {a b c d e : List Char}
    (heq : s.data = a ++ '-' :: (b ++ '-' :: (c ++ '-' :: (d ++ '-' :: e))))
    (ha : a.length = 8) (hb : b.length = 4) (hc : c.length = 4)
    (hd : d.length = 4) (he : e.length = 12)
    (hhex : ∀ x ∈ a ++ (b ++ (c ++ (d ++ e))), isHexChar x = true) :
    extractPageId s = some (String.mk (a ++ (b ++ (c ++ (d ++ e))))) := by
  have hpart : ∀ x : List Char, (∀ y ∈ x, isHexChar y = true) →
      (x.filter fun c => decide (c.toNat ≠ 45)) = x := fun x hx =>
    List.filter_eq_self.mpr fun y hy => by
      simpa using isHexChar_ne_45 (hx y hy)
  have hstep : ∀ x y : List Char, (∀ z ∈ x, isHexChar z = true) →
      ((x ++ '-' :: y).filter fun c => decide (c.toNat ≠ 45)) =
      x ++ (y.filter fun c => decide (c.toNat ≠ 45)) := by
    intro x y hx
    rw [List.filter_append, List.filter_cons_of_neg (by decide), hpart x hx]
  have hfilter : (s.data.filter fun c => decide (c.toNat ≠ 45)) =
      a ++ (b ++ (c ++ (d ++ e))) := by
    rw [heq,
      hstep a _ fun y hy => hhex y (by simp [hy]),
      hstep b _ fun y hy => hhex y (by simp [hy]),
      hstep c _ fun y hy => hhex y (by simp [hy]),
      hstep d _ fun y hy => hhex y (by simp [hy]),
      hpart e fun y hy => hhex y (by simp [hy])]
  have hbare : isBare32Hex (s.data.filter fun c => decide (c.toNat ≠ 45)) := by
    rw [hfilter]
    refine ⟨?_, hhex⟩
    simp [ha, hb, hc, hd, he]
  have hres := extractPageId_of_clean hbare
  rw [hfilter] at hres
  exact hres

/-- The first-branch condition of `extractPageId` holds exactly for bare
32-hex character lists. -/
theorem isBare32Hex_cond (l : List Char) :
    ((l.length = 32 && l.all isHexChar) = true) ↔ isBare32Hex l := by
  rw [Bool.and_eq_true, decide_eq_true_eq, List.all_eq_true]
  exact Iff.rfl

/-- Converse of `findMatch_eq_none`: when the pattern matches at no
position, the scan returns `null`. -/
theorem findMatch_eq_none_of_all {f : List Char → Option (List Char)}
    {l : List Char} (h : ∀ l', l' <:+ l → f l' = none) :
    findMatch f l = none := by
  cases hfm : findMatch f l with
  | none => rfl
  | some m =>
    obtain ⟨l', hsuf, hf⟩ := findMatch_eq_some hfm
    rw [h l' hsuf] at hf
    exact Option.noConfusion hf

/-- Membership in `tails` gives every suffix. -/
theorem all_suffixes_of_tails {x : List Char} {P : List Char → Prop}
    (h : ∀ l' ∈ x.tails, P l') : ∀ l', l' <:+ x → P l' :=
  fun l' hs => h l' ((List.mem_tails l' x).mpr hs)

/-- C8 (amended) — Identifier extraction accepts a bare 32-hex id, a
canonically dashed (8-4-4-4-12) 36-character id, and any input that
contains a 32-hex id as a trailing segment (at the very end or followed by
`?`); and it returns the no-identifier-found result (null) exactly when
the hyphen-stripped input is not a bare 32-hex id and no position of the
input starts a 32-hex run, or a 36-character hex-or-hyphen run, ending at
`?` or at the end of the input.  (The original claim's converse — null for
*every* input containing no well-formed id — fails: a 36-character
hex-or-hyphen run need not contain a well-formed id, see the
counterexample.)  Being a total function, extraction never throws. -/
theorem extractPageId_spec (s : String) :
    (isBare32Hex s.data → extractPageId s = some s) ∧
    (∀ a b c d e : List Char,
      s.data = a ++ '-' :: (b ++ '-' :: (c ++ '-' :: (d ++ '-' :: e))) →
      a.length = 8 → b.length = 4 → c.length = 4 → d.length = 4 →
      e.length = 12 →
      (∀ x ∈ a ++ (b ++ (c ++ (d ++ e))), isHexChar x = true) →
      extractPageId s = some (String.mk (a ++ (b ++ (c ++ (d ++ e)))))) ∧
    (∀ t q : String, isBare32Hex s.data →
      extractPageId (t ++ s) ≠ none ∧
      extractPageId (t ++ s ++ "?" ++ q) ≠ none) ∧
    (extractPageId s = none ↔
      (¬ isBare32Hex (s.data.filter fun c => decide (c.toNat ≠ 45)) ∧
       ∀ l', l' <:+ s.data →
         matchHex32At l' = none ∧ matchHexDash36At l' = none)) := by
  refine ⟨fun h => extractPageId_bare h,
    fun a b c d e heq ha hb hc hd he hhex =>
      extractPageId_dashed heq ha hb hc hd he hhex, ?_, ?_, ?_⟩
  · intro t q h
    constructor
    · have hdata : (t ++ s).data = t.data ++ s.data := string_data_append t s
      have hsuf : s.data <:+ (t ++ s).data := ⟨t.data, hdata.symm⟩
      exact extractPageId_ne_none_of_suffix hsuf
        (by rw [matchHex32At_bare h]; exact Option.noConfusion)
    · have hdata : (t ++ s ++ "?" ++ q).data =
          t.data ++ (s.data ++ '?' :: q.data) := by
        simp only [string_data_append, List.append_assoc]
        rfl
      have hsuf : s.data ++ '?' :: q.data <:+ (t ++ s ++ "?" ++ q).data :=
        ⟨t.data, hdata.symm⟩
      exact extractPageId_ne_none_of_suffix hsuf
        (by rw [matchHex32At_query h]; exact Option.noConfusion)
  · intro hnone
    simp only [extractPageId] at hnone
    split at hnone
    case isTrue hcond => exact Option.noConfusion hnone
    case isFalse hcond =>
      refine ⟨fun hb => hcond ((isBare32Hex_cond _).mpr hb), ?_⟩
      intro l' hsuf
      cases h32 : findMatch matchHex32At s.data with
      | some m => rw [h32] at hnone; exact Option.noConfusion hnone
      | none =>
        rw [h32] at hnone
        cases h36 : findMatch matchHexDash36At s.data with
        | some m => rw [h36] at hnone; exact Option.noConfusion hnone
        | none =>
          exact ⟨findMatch_eq_none h32 l' hsuf, findMatch_eq_none h36 l' hsuf⟩
  · rintro ⟨hnb, hnom⟩
    have h32 : findMatch matchHex32At s.data = none :=
      findMatch_eq_none_of_all fun l' hsuf => (hnom l' hsuf).1
    have h36 : findMatch matchHexDash36At s.data = none :=
      findMatch_eq_none_of_all fun l' hsuf => (hnom l' hsuf).2
    simp only [extractPageId]
    split
    case isTrue hcond => exact absurd ((isBare32Hex_cond _).mp hcond) hnb
    case isFalse hcond => rw [h32, h36]

/-- Witness for C8: the bare id, URL-with-trailing-id (with and without a
query string), dashed-id, null-to-no-match and no-match-to-null cases of
`extractPageId_spec`, at concrete inputs. -/
theorem extractPageId_spec_witness :
    extractPageId "0123456789abcdef0123456789abcdef" =
      some "0123456789abcdef0123456789abcdef" ∧
    extractPageId ("https://www.notion.so/My-Page-" ++
      "0123456789abcdef0123456789abcdef") ≠ none ∧
    extractPageId ("https://notion.so/" ++ "0123456789abcdef0123456789abcdef" ++
      "?" ++ "pvs=4") ≠ none ∧
    extractPageId "01234567-89ab-cdef-0123-456789abcdef" =
      some "0123456789abcdef0123456789abcdef" ∧
    matchHex32At ("hello" : String).data = none ∧
    extractPageId "zzzz" = none := by
  refine ⟨?_, ?_, ?_, ?_, ?_, ?_⟩
  · exact (extractPageId_spec "0123456789abcdef0123456789abcdef").1 (by decide)
  · exact ((extractPageId_spec "0123456789abcdef0123456789abcdef").2.2.1
      "https://www.notion.so/My-Page-" "" (by decide)).1
  · exact ((extractPageId_spec "0123456789abcdef0123456789abcdef").2.2.1
      "https://notion.so/" "pvs=4" (by decide)).2
  · have h := (extractPageId_spec "01234567-89ab-cdef-0123-456789abcdef").2.1
      "01234567".data "89ab".data "cdef".data "0123".data "456789abcdef".data
      (by decide) (by decide) (by decide) (by decide) (by decide) (by decide)
      (by decide)
    exact h.trans (by decide)
  · exact (((extractPageId_spec "hello").2.2.2.mp (by decide)).2 "hello".data
      (List.suffix_refl _)).1
  · exact (extractPageId_spec "zzzz").2.2.2.mpr
      ⟨by decide, all_suffixes_of_tails (by decide)⟩

/-- C8 counterexample — the input `"b"` followed by 35 hyphens contains no
well-formed id (it has a single hex character in total), yet extraction
returns `some "b"` instead of the no-identifier-found result. -/
theorem extractPageId_no_id_counterexample :
    extractPageId (String.mk ('b' :: List.replicate 35 '-')) =
      some (String.mk ['b']) ∧
    (('b' :: List.replicate 35 '-').filter isHexChar).length = 1 := by
  exact ⟨by decide, by decide⟩

/-- C10 (amended) — Whenever identifier extraction returns a non-null
result, the result consists of hexadecimal characters only and contains no
hyphen; for a bare 32-hex input and for a canonically dashed (8-4-4-4-12)
input the result is exactly 32 characters.  (The original claim's
unconditional "exactly 32 characters" fails: the 36-character
hex-or-hyphen path strips the hyphens of whatever run it matched, and a
non-canonical run can leave a different length — see the
counterexample.) -/
theorem extractPageId_normalized (s r : String) (h : extractPageId s = some r) :
    (∀ c ∈ r.data, isHexChar c = true) ∧
    (∀ c ∈ r.data, c.toNat ≠ 45) ∧
    (isBare32Hex s.data → r.data.length = 32) ∧
    (∀ a b c d e : List Char,
      s.data = a ++ '-' :: (b ++ '-' :: (c ++ '-' :: (d ++ '-' :: e))) →
      a.length = 8 → b.length = 4 → c.length = 4 → d.length = 4 →
      e.length = 12 →
      (∀ x ∈ a ++ (b ++ (c ++ (d ++ e))), isHexChar x = true) →
      r.data.length = 32) := by
  have hhex : ∀ c ∈ r.data, isHexChar c = true := by
    have h2 := h
    simp only [extractPageId] at h2
    split at h2
    case isTrue hcond =>
      rw [Bool.and_eq_true, decide_eq_true_eq, List.all_eq_true] at hcond
      have hr := Option.some.inj h2
      subst hr
      exact hcond.2
    case isFalse hcond =>
      cases h32 : findMatch matchHex32At s.data with
      | some m =>
        rw [h32] at h2
        have hr := Option.some.inj h2
        subst hr
        obtain ⟨l', _, hl'⟩ := findMatch_eq_some h32
        exact (matchHex32At_some hl').2
      | none =>
        rw [h32] at h2
        cases h36 : findMatch matchHexDash36At s.data with
        | some m =>
          rw [h36] at h2
          have hr := Option.some.inj h2
          subst hr
          intro c hc
          have hmem := List.mem_filter.mp hc
          obtain ⟨l', _, hl'⟩ := findMatch_eq_some h36
          have hclass := matchHexDash36At_some hl' c hmem.1
          have hne : c.toNat ≠ 45 := by simpa using hmem.2
          rcases Bool.or_eq_true _ _ |>.mp hclass with h' | h'
          · exact h'
          · exact absurd (by simpa using h') hne
        | none =>
          rw [h36] at h2
          exact Option.noConfusion h2
  refine ⟨hhex, fun c hc => isHexChar_ne_45 (hhex c hc), ?_, ?_⟩
  · intro hbs
    have hacc := extractPageId_bare hbs
    rw [h] at hacc
    rw [Option.some.inj hacc]
    exact hbs.1
  · intro a b c d e heq ha hb hc hd he hhex2
    have hacc := extractPageId_dashed heq ha hb hc hd he hhex2
    rw [h] at hacc
    rw [Option.some.inj hacc]
    show (a ++ (b ++ (c ++ (d ++ e)))).length = 32
    simp [ha, hb, hc, hd, he]

/-- Witness for C10: `extractPageId_normalized` applied to the canonical
dashed id (all-hex, hyphen-free, 32 characters) and to a bare id (32
characters). -/
theorem extractPageId_normalized_witness :
    (∀ c ∈ ("0123456789abcdef0123456789abcdef" : String).data,
      isHexChar c = true) ∧
    (∀ c ∈ ("0123456789abcdef0123456789abcdef" : String).data, c.toNat ≠ 45) ∧
    ("0123456789abcdef0123456789abcdef" : String).data.length = 32 ∧
    ("abcdefabcdefabcdefabcdefabcdef00" : String).data.length = 32 := by
  have h1 := extractPageId_normalized "01234567-89ab-cdef-0123-456789abcdef"
    "0123456789abcdef0123456789abcdef" (by decide)
  have h2 := extractPageId_normalized "abcdefabcdefabcdefabcdefabcdef00"
    "abcdefabcdefabcdefabcdefabcdef00" (by decide)
  exact ⟨h1.1, h1.2.1,
    h1.2.2.2 "01234567".data "89ab".data "cdef".data "0123".data
      "456789abcdef".data (by decide) (by decide) (by decide) (by decide)
      (by decide) (by decide) (by decide),
    h2.2.2.1 (by decide)⟩

/-- C10 counterexample — on `"a"` followed by 35 hyphens (a 36-character
hex-or-hyphen run), extraction returns the one-character id `"a"`,
so a non-null result need not have 32 characters. -/
theorem extractPageId_length_counterexample :
    extractPageId (String.mk ('a' :: List.replicate 35 '-')) =
      some (String.mk ['a']) ∧
    (String.mk ['a']).data.length ≠ 32 := by
  exact ⟨by decide, by decide⟩

/-! ## Rich-text composition (`src/server/services/notion.ts:317-348`) -/

/-- The annotation flags of a rich-text span. -/
structure Annotations where
  bold : Bool
  italic : Bool
  strikethrough : Bool
  code : Bool
deriving DecidableEq

/-- A rich-text span: plain text, annotations and an optional link target.
An absent `plain_text` or `annotations` object defaults to empty/false in
the source (`text.plain_text || ''`, optional chaining), which the plain
fields model. -/
structure RichTextSpan where
  plain_text : String
  annotations : Annotations
  href : Option String
deriving DecidableEq

/-- The per-span body of `richTextToMarkdown` (`notion.ts:323-345`): the
bold wrap is applied first, then italic, then strikethrough, then code
(so `code` markers end up outermost), and finally the whole result is
wrapped in a link when `href` is present (JS truthiness: an empty string
href does not wrap). -/
def spanToMarkdown (t : RichTextSpan) : String :=
  let content := t.plain_text
  let content := if t.annotations.bold then "**" ++ content ++ "**" else content
  let content := if t.annotations.italic then "*" ++ content ++ "*" else content
  let content := if t.annotations.strikethrough then "~~" ++ content ++ "~~" else content
  let content := if t.annotations.code then "`" ++ content ++ "`" else content
  match t.href with
  | some h => if h = "" then content else "[" ++ content ++ "](" ++ h ++ ")"
  | none => content

/-- Function `richTextToMarkdown` (`notion.ts:317-348`): map the spans and
concatenate with no separator. -/
def richTextToMarkdown (richText : List RichTextSpan) : String :=
  String.join (richText.map spanToMarkdown)

/-- The composition order asserted by the claim, defined from the spec's
words for comparison: `code` innermost, then `strikethrough`, then
`italic`, then `bold` outermost, then the link wrap. -/
def claimedSpanToMarkdown (t : RichTextSpan) : String :=
  let content := t.plain_text
  let content := if t.annotations.code then "`" ++ content ++ "`" else content
  let content := if t.annotations.strikethrough then "~~" ++ content ++ "~~" else content
  let content := if t.annotations.italic then "*" ++ content ++ "*" else content
  let content := if t.annotations.bold then "**" ++ content ++ "**" else content
  match t.href with
  | some h => if h = "" then content else "[" ++ content ++ "](" ++ h ++ ")"
  | none => content

/-- C1 counterexample — on a span carrying both `bold` and `code`, the
composer produces the code markers outermost, not innermost as claimed. -/
theorem richText_order_counterexample :
    richTextToMarkdown [⟨"x", ⟨true, false, false, true⟩, none⟩] = "`**x**`" ∧
    claimedSpanToMarkdown ⟨"x", ⟨true, false, false, true⟩, none⟩ = "**`x`**" ∧
    richTextToMarkdown [⟨"x", ⟨true, false, false, true⟩, none⟩] ≠
      claimedSpanToMarkdown ⟨"x", ⟨true, false, false, true⟩, none⟩ := by
  exact ⟨rfl, rfl, by decide⟩

/-- Wrap `s` in `mark` pairs when `b` is set. -/
def wrapIf (b : Bool) (mark : String) (s : String) : String :=
  if b then mark ++ s ++ mark else s

/-- The nesting order the code actually implements, stated spec-style:
bold innermost, then italic, then strikethrough, then code outermost, then
the link wrap (when `href` is present and non-empty). -/
def amendedSpanToMarkdown (t : RichTextSpan) : String :=
  let inner := wrapIf t.annotations.code "`"
    (wrapIf t.annotations.strikethrough "~~"
      (wrapIf t.annotations.italic "*"
        (wrapIf t.annotations.bold "**" t.plain_text)))
  match t.href with
  | some h => if h = "" then inner else "[" ++ inner ++ "](" ++ h ++ ")"
  | none => inner

/-- C1 (amended) — For every rich-text span the composer wraps `bold`
innermost, then `italic`, then `strikethrough`, then `code` outermost,
each conditional on its flag, and finally wraps the whole in a link when
`link` is present (link wraps all other formatting); the run
`[{text:"a", bold:true}, {text:"b", italic:true, link:"http://x"}]`
composes to `**a**[*b*](http://x)`. -/
theorem richTextToMarkdown_nesting :
    (∀ t : RichTextSpan, spanToMarkdown t = amendedSpanToMarkdown t) ∧
    richTextToMarkdown
      [⟨"a", ⟨true, false, false, false⟩, none⟩,
       ⟨"b", ⟨false, true, false, false⟩, some "http://x"⟩] =
      "**a**[*b*](http://x)" := by
  constructor
  · intro t
    rfl
  · rfl

/-! ## Notion block trees (`src/server/services/notion.ts:177-312`) -/

/-- A Notion block, as dispatched on by `blockToMarkdown`'s `switch` on
`block.type`.  `children` is `Option`al where the code tests
`block.children` for presence; optional URL/language/icon strings model the
corresponding optional payload fields. -/
inductive Block where
  | paragraph (rich_text : List RichTextSpan)
  | heading_1 (rich_text : List RichTextSpan)
  | heading_2 (rich_text : List RichTextSpan)
  | heading_3 (rich_text : List RichTextSpan)
  | bulleted_list_item (rich_text : List RichTextSpan) (children : Option (List Block))
  | numbered_list_item (rich_text : List RichTextSpan) (children : Option (List Block))
  | to_do (checked : Bool) (rich_text : List RichTextSpan)
  | toggle (rich_text : List RichTextSpan) (children : Option (List Block))
  | code (language : Option String) (rich_text : List RichTextSpan)
  | quote (rich_text : List RichTextSpan)
  | callout (icon : Option String) (rich_text : List RichTextSpan)
  | divider
  | image (url : Option String) (caption : Option (List RichTextSpan))
  | bookmark (url : Option String)
  | link_preview (url : Option String)
  | table (children : Option (List Block))
  | table_row (cells : List (List RichTextSpan))
  | column_list (children : Option (List Block))
  | column (children : Option (List Block))
  | unknown (rich_text : Option (List RichTextSpan))

/-- The access `row.table_row?.cells || []` (`notion.ts:301`): the cells of a row
block, `[]` for any other block kind. -/
def getCells : Block → List (List RichTextSpan)
  | .table_row cells => cells
  | _ => []

/-- One rendered table row: `| ${cellTexts.join(' | ')} |`
(`notion.ts:303`). -/
def tableRowLine (row : Block) : String :=
  "| " ++ String.intercalate " | " ((getCells row).map richTextToMarkdown) ++ " |"

/-- The separator emitted after the header row:
`| ${cells.map(() => '---').join(' | ')} |` (`notion.ts:307`). -/
def tableSepLine (row : Block) : String :=
  "| " ++ String.intercalate " | " ((getCells row).map fun _ => "---") ++ " |"

/-- The line-collecting loop of `tableToMarkdown` (`notion.ts:299-309`):
the flag records whether the current row is the first (header) row, after
which the separator line is pushed. -/
def tableLines : List Block → Bool → List String
  | [], _ => []
  | r :: rs, isFirst =>
    if isFirst then tableRowLine r :: tableSepLine r :: tableLines rs false
    else tableRowLine r :: tableLines rs false

/-- Function `tableToMarkdown` (`notion.ts:294-312`). -/
def tableToMarkdown (rows : List Block) : String :=
  if rows.isEmpty then "" else String.intercalate "\n" (tableLines rows true)

mutual

/-- Function `blocksToMarkdown` (`notion.ts:177-188`): convert each block, keep the
non-empty fragments, join with a blank line (`'\n\n'`). -/
def blocksToMarkdown (blocks : List Block) (depth : Nat) : String :=
  String.intercalate "\n\n" (blockMds blocks depth)
termination_by (sizeOf blocks, 1)

/-- The fragment-collecting loop of `blocksToMarkdown`
(`notion.ts:180-185`): `if (md) lines.push(md)`. -/
def blockMds : List Block → Nat → List String
  | [], _ => []
  | b :: bs, depth =>
    let md := blockToMarkdown b depth
    if md = "" then blockMds bs depth else md :: blockMds bs depth
termination_by blocks _ => (sizeOf blocks, 0)

/-- Function `blockToMarkdown` (`notion.ts:193-288`). -/
def blockToMarkdown : Block → Nat → String
  | .paragraph rt, _ => richTextToMarkdown rt
  | .heading_1 rt, _ => "# " ++ richTextToMarkdown rt
  | .heading_2 rt, _ => "## " ++ richTextToMarkdown rt
  | .heading_3 rt, _ => "### " ++ richTextToMarkdown rt
  | .bulleted_list_item rt children, depth =>
    let indent := String.join (List.replicate depth "  ")
    let content := richTextToMarkdown rt
    let childrenMd := match children with
      | some cs => blocksToMarkdown cs (depth + 1)
      | none => ""
    indent ++ "- " ++ content ++ (if childrenMd = "" then "" else "\n" ++ childrenMd)
  | .numbered_list_item rt children, depth =>
    let indent := String.join (List.replicate depth "  ")
    let content := richTextToMarkdown rt
    let childrenMd := match children with
      | some cs => blocksToMarkdown cs (depth + 1)
      | none => ""
    indent ++ "1. " ++ content ++ (if childrenMd = "" then "" else "\n" ++ childrenMd)
  | .to_do checked rt, _ =>
    "- [" ++ (if checked then "x" else " ") ++ "] " ++ richTextToMarkdown rt
  | .toggle rt children, depth =>
    let summary := richTextToMarkdown rt
    let childrenMd := match children with
      | some cs => blocksToMarkdown cs depth
      | none => ""
    "<details>\n<summary>" ++ summary ++ "</summary>\n\n" ++ childrenMd ++ "\n</details>"
  | .code language rt, _ =>
    "```" ++ language.getD "" ++ "\n" ++ richTextToMarkdown rt ++ "\n```"
  | .quote rt, _ => "> " ++ richTextToMarkdown rt
  | .callout icon rt, _ =>
    let ic := match icon with
      | some e => if e = "" then "💡" else e
      | none => "💡"
    "> " ++ ic ++ " " ++ richTextToMarkdown rt
  | .divider, _ => "---"
  | .image url caption, _ =>
    let capMd := match caption with
      | some cap => richTextToMarkdown cap
      | none => ""
    (match url with
      | some u =>
        if u = "" then ""
        else if capMd = "" then "![Image](" ++ u ++ ")"
        else "![" ++ capMd ++ "](" ++ u ++ ")\n*" ++ capMd ++ "*"
      | none => "")
  | .bookmark url, _ =>
    (match url with
      | some u => if u = "" then "" else "[" ++ u ++ "](" ++ u ++ ")"
      | none => "")
  | .link_preview url, _ =>
    (match url with
      | some u => if u = "" then "" else "[" ++ u ++ "](" ++ u ++ ")"
      | none => "")
  | .table children, _ =>
    (match children with
      | some rows => tableToMarkdown rows
      | none => "")
  | .table_row _, _ => ""
  | .column_list children, depth =>
    (match children with
      | some cs => blocksToMarkdown cs depth
      | none => "")
  | .column children, depth =>
    (match children with
      | some cs => blocksToMarkdown cs depth
      | none => "")
  | .unknown rich_text, _ =>
    (match rich_text with
      | some rt => richTextToMarkdown rt
      | none => "")
termination_by b _ => (sizeOf b, 0)

end

theorem blockMds_eq_filter (blocks : List Block) (depth : Nat) :
    blockMds blocks depth =
      (blocks.map fun b => blockToMarkdown b depth).filter fun s =>
        decide (s ≠ "") := by
  induction blocks with
  | nil => simp [blockMds]
  | cons b bs ih =>
    rw [blockMds, List.map_cons, List.filter_cons]
    by_cases h : blockToMarkdown b depth = ""
    · rw [if_pos h, ih]
      have : decide (blockToMarkdown b depth ≠ "") = false := by
        simp [h]
      rw [this, if_neg (by simp)]
    · rw [if_neg h, ih]
      have : decide (blockToMarkdown b depth ≠ "") = true := by
        simp [h]
      rw [this, if_pos rfl]

/-- C6 — Sibling fragments are joined with exactly one blank line (two
newlines) between consecutive non-empty fragments, empty fragments are
dropped entirely, and an unknown block kind with no text payload yields
the empty fragment and contributes no blank lines to the join. -/
theorem blocksToMarkdown_join (blocks : List Block) (depth : Nat) :
    blocksToMarkdown blocks depth =
      String.intercalate "\n\n"
        ((blocks.map fun b => blockToMarkdown b depth).filter fun s =>
          decide (s ≠ "")) ∧
    blockToMarkdown (Block.unknown none) depth = "" ∧
    blocksToMarkdown
      [Block.paragraph [⟨"a", ⟨false, false, false, false⟩, none⟩],
       Block.unknown none,
       Block.paragraph [⟨"b", ⟨false, false, false, false⟩, none⟩]] 0 =
      "a\n\nb" := by
  refine ⟨?_, ?_, ?_⟩
  · rw [blocksToMarkdown, blockMds_eq_filter]
  · simp [blockToMarkdown]
  · simp only [blocksToMarkdown, blockMds, blockToMarkdown]
    rfl

theorem tableLines_false (rs : List Block) :
    tableLines rs false = rs.map tableRowLine := by
  induction rs with
  | nil => rfl
  | cons r rs ih =>
    rw [tableLines, if_neg (by simp), ih, List.map_cons]

/-- C7 — For every non-empty table the first row renders as a
pipe-delimited header line, immediately followed by a separator line with
one `---` cell per column, and every subsequent row renders in the same
pipe-delimited format; a table with one 2-column header row and one data
row yields exactly the header line, `| --- | --- |` and the data line; a
table with no rows yields the empty string. -/
theorem tableToMarkdown_spec :
    (∀ (r : Block) (rs : List Block),
      tableToMarkdown (r :: rs) =
        String.intercalate "\n"
          (tableRowLine r :: tableSepLine r :: rs.map tableRowLine)) ∧
    tableToMarkdown [] = "" ∧
    tableToMarkdown
      [Block.table_row [[⟨"h1", ⟨false, false, false, false⟩, none⟩],
                        [⟨"h2", ⟨false, false, false, false⟩, none⟩]],
       Block.table_row [[⟨"d1", ⟨false, false, false, false⟩, none⟩],
                        [⟨"d2", ⟨false, false, false, false⟩, none⟩]]] =
      "| h1 | h2 |\n| --- | --- |\n| d1 | d2 |" := by
  refine ⟨?_, ?_, ?_⟩
  · intro r rs
    rw [tableToMarkdown, if_neg (by simp), tableLines, if_pos rfl,
      tableLines_false]
  · rfl
  · rfl

/-! ## Paginated block fetching (`src/server/services/notion.ts:149-172`)

The remote provider contract is the spec's §6 boundary
(`{results, hasMore, nextCursor}`); cursors are modelled as page indices.
The do/while loop below is translated from `fetchAllBlocks`; the blocks it
returns already carry their (recursively expanded) children, so the claim
about one node's page list is stated directly on the returned list. -/

/-- One page of a block-children listing, per the provider contract:
`{results, has_more, next_cursor}`. -/
structure ListResponse where
  results : List Block
  has_more : Bool
  next_cursor : Option Nat

/-- The do/while loop of `fetchAllBlocks` (`notion.ts:153-162`): call the
provider, append the results, and continue with
`has_more ? next_cursor ?? undefined : undefined` while a cursor remains.
`fuel` bounds the number of iterations (the loop itself has no bound; any
fuel at least the number of pages is enough, as proved below). -/
def fetchLoop (provider : Option Nat → ListResponse) :
    Nat → Option Nat → List Block
  | 0, _ => []
  | fuel + 1, cursor =>
    let response := provider cursor
    let next := if response.has_more then response.next_cursor else none
    response.results ++
      (match next with
        | some c => fetchLoop provider fuel (some c)
        | none => [])

/-- Function `fetchAllBlocks` (`notion.ts:149-172`): run the pagination loop from
the absent start cursor. -/
def fetchAllBlocks (provider : Option Nat → ListResponse) (fuel : Nat) :
    List Block :=
  fetchLoop provider fuel none

/-- A provider that serves the given chunks in order, one per call,
threading the next page index as the opaque cursor and reporting
`has_more` while pages remain. -/
def mkPagedProvider (chunks : List (List Block)) : Option Nat → ListResponse :=
  fun cursor =>
    let i := cursor.getD 0
    { results := chunks.getD i []
      has_more := decide (i + 1 < chunks.length)
      next_cursor := if i + 1 < chunks.length then some (i + 1) else none }

theorem fetchLoop_paged (chunks : List (List Block)) :
    ∀ (fuel k : Nat) (cursor : Option Nat), cursor.getD 0 = k →
      chunks.length - k ≤ fuel → 1 ≤ fuel →
      fetchLoop (mkPagedProvider chunks) fuel cursor = (chunks.drop k).flatten := by
  intro fuel
  induction fuel with
  | zero => intro k cursor _ _ h1; omega
  | succ n ih =>
    intro k cursor hk hlen _
    simp only [fetchLoop, mkPagedProvider, hk]
    by_cases hmore : k + 1 < chunks.length
    · rw [if_pos hmore]
      have hdec : decide (k + 1 < chunks.length) = true := decide_eq_true hmore
      rw [hdec, if_pos rfl]
      have hrec := ih (k + 1) (some (k + 1)) rfl (by omega) (by omega)
      have hk_lt : k < chunks.length := by omega
      rw [List.drop_eq_getElem_cons hk_lt, List.flatten_cons]
      simp only [List.getD_eq_getElem?_getD, List.getElem?_eq_getElem hk_lt,
        Option.getD_some, hrec]
    · rw [if_neg hmore]
      have hdec : decide (k + 1 < chunks.length) = false :=
        decide_eq_false hmore
      rw [hdec, if_neg (by simp)]
      by_cases hk_lt : k < chunks.length
      · have hklen : k + 1 = chunks.length := by omega
        rw [List.drop_eq_getElem_cons hk_lt, List.flatten_cons,
          List.drop_eq_nil_of_le (by omega), List.flatten_nil]
        simp only [List.getD_eq_getElem?_getD, List.getElem?_eq_getElem hk_lt,
          Option.getD_some, List.append_nil]
      · rw [List.drop_eq_nil_of_le (by omega), List.flatten_nil]
        have hnone : chunks[k]? = none := List.getElem?_eq_none (by omega)
        simp only [List.getD_eq_getElem?_getD, hnone, Option.getD_none,
          List.append_nil]

theorem fetchAllBlocks_paged (chunks : List (List Block)) (fuel : Nat)
    (h : chunks.length ≤ fuel) :
    fetchAllBlocks (mkPagedProvider chunks) fuel = chunks.flatten := by
  unfold fetchAllBlocks
  by_cases hf : 1 ≤ fuel
  · have hres := fetchLoop_paged chunks fuel 0 none rfl (by omega) hf
    simpa using hres
  · have hf0 : fuel = 0 := by omega
    have hnil : chunks = [] := List.length_eq_zero.mp (by omega)
    subst hf0
    subst hnil
    rfl

/-- C4 — For every block list and every way of splitting it into provider
pages, the pagination loop calls the provider repeatedly, threading the
returned cursor until no cursor is returned, concatenates all pages in the
order received, and linearization of the paginated fetch produces the same
markdown as linearizing the single-page fetch of the whole list. -/
theorem pagination_refinement (chunks : List (List Block)) (fuel : Nat)
    (h : chunks.length ≤ fuel) :
    fetchAllBlocks (mkPagedProvider chunks) fuel = chunks.flatten ∧
    blocksToMarkdown (fetchAllBlocks (mkPagedProvider chunks) fuel) 0 =
      blocksToMarkdown (fetchAllBlocks (mkPagedProvider [chunks.flatten]) 1) 0 := by
  have h1 := fetchAllBlocks_paged chunks fuel h
  have h2 := fetchAllBlocks_paged [chunks.flatten] 1 (by simp)
  refine ⟨h1, ?_⟩
  rw [h1, h2]
  simp

/-- Witness for C4: 250 blocks split into pages of 100/100/50 linearize to
the same markdown as a single page of all 250 blocks. -/
theorem pagination_refinement_witness :
    ([List.replicate 100 Block.divider, List.replicate 100 Block.divider,
      List.replicate 50 Block.divider] : List (List Block)).length ≤ 3 ∧
    (fetchAllBlocks (mkPagedProvider [List.replicate 100 Block.divider,
        List.replicate 100 Block.divider, List.replicate 50 Block.divider]) 3 =
      [List.replicate 100 Block.divider, List.replicate 100 Block.divider,
        List.replicate 50 Block.divider].flatten ∧
      blocksToMarkdown (fetchAllBlocks (mkPagedProvider
        [List.replicate 100 Block.divider, List.replicate 100 Block.divider,
         List.replicate 50 Block.divider]) 3) 0 =
      blocksToMarkdown (fetchAllBlocks (mkPagedProvider
        [[List.replicate 100 Block.divider, List.replicate 100 Block.divider,
          List.replicate 50 Block.divider].flatten]) 1) 0) :=
  ⟨by simp, pagination_refinement _ 3 (by simp)⟩

/-! ## Markdown token streams (`src/server/services/markdown.ts`)

`extractToc`, `extractTitle` and `parseMarkdown` below are translated from
the source.  The markdown-it tokenizer, renderer and the anchor plugin's
id assignment are third-party dependencies that are not part of the
repository; they are modelled from the spec (§4.3): the token stream holds
`heading_open`/`paragraph_open` tokens each immediately followed by an
`inline` content token, and every rendered heading carries an `id`
attribute produced by the shared slugify function from the heading's
inline content. -/

/-- A markdown-it token: its `type`, HTML `tag` and inline `content`. -/
structure Token where
  type : String
  tag : String
  content : String
deriving DecidableEq

/-- A TOC entry (`types`: `{id, text, level}`). -/
structure TocEntry where
  id : String
  text : String
  level : Nat
deriving DecidableEq

/-- JS `parseInt(s, 10)` on a digit-prefixed string: parse the leading
run of digits, `none` (NaN) when there is none. -/
def jsParseInt (cs : List Char) : Option Nat :=
  let ds := cs.takeWhile fun c => c.isDigit
  if ds.isEmpty then none
  else some (ds.foldl (fun n c => 10 * n + (c.toNat - 48)) 0)

/-- The call `parseInt(token.tag.slice(1), 10)` (`markdown.ts:48`), with a failed
parse (NaN) mapped to 0, which fails the level range check exactly as NaN
does. -/
def headingTagLevel (tag : String) : Nat :=
  (jsParseInt (tag.data.drop 1)).getD 0

/-- The slug chain inlined in `extractToc` (`markdown.ts:54-58`) — the
source repeats the slugify chain literally rather than calling the shared
function. -/
def tocSlug (s : String) : String :=
  String.mk (stripNonWord (collapseWs (jsTrim (s.data.map jsToLower))))

/-- Function `extractToc` (`markdown.ts:42-66`): scan for `heading_open` tokens,
parse the level from the tag, keep levels 2-3, and pair each with the
immediately following `inline` token, slugifying its content. -/
def extractToc : List Token → List TocEntry
  | [] => []
  | t :: rest =>
    if t.type = "heading_open" then
      if 2 ≤ headingTagLevel t.tag ∧ headingTagLevel t.tag ≤ 3 then
        match rest with
        | u :: _ =>
          if u.type = "inline" then
            ⟨tocSlug u.content, u.content, headingTagLevel t.tag⟩ ::
              extractToc rest
          else extractToc rest
        | [] => extractToc rest
      else extractToc rest
    else extractToc rest

/-- Function `extractTitle` (`markdown.ts:71-82`): the content of the inline token
following the first `heading_open` with tag `h1`. -/
def extractTitle : List Token → Option String
  | [] => none
  | t :: rest =>
    if t.type = "heading_open" ∧ t.tag = "h1" then
      match rest with
      | u :: _ =>
        if u.type = "inline" then some u.content else extractTitle rest
      | [] => extractTitle rest
    else extractTitle rest

/-! ### The tokenizer, modelled from the spec -/

/-- A block of the intermediate representation: an ATX heading or a
paragraph. -/
inductive MdBlock where
  | heading (level : Nat) (text : String)
  | para (text : String)
deriving DecidableEq

/-- Modelled from the spec: the markdown-it token triple of one block —
an open token (tag `h1`..`h6` or `p`), the `inline` content token, and the
close token. -/
def blockTokens : MdBlock → List Token
  | .heading l t =>
    [⟨"heading_open", "h" ++ toString l, ""⟩, ⟨"inline", "", t⟩,
     ⟨"heading_close", "h" ++ toString l, ""⟩]
  | .para t =>
    [⟨"paragraph_open", "p", ""⟩, ⟨"inline", "", t⟩,
     ⟨"paragraph_close", "p", ""⟩]

/-- Modelled from the spec: the token stream of a block sequence. -/
def mdTokenize (blocks : List MdBlock) : List Token :=
  (blocks.map blockTokens).flatten

/-- A line containing only spaces/tabs separates blocks. -/
def isBlankLine (line : String) : Bool :=
  line.data.all fun c => c = ' ' || c = '\t'

/-- Drop spaces and tabs from both ends of a character list. -/
def trimChars (l : List Char) : List Char :=
  ((l.dropWhile fun c => c = ' ' || c = '\t').reverse.dropWhile
    fun c => c = ' ' || c = '\t').reverse

/-- Modelled from the spec: recognise an ATX heading line — one to six
`#` characters followed by a space (or the end of the line), the trimmed
remainder being the heading text. -/
def headingOfLine (line : String) : Option MdBlock :=
  let k := (line.data.takeWhile fun c => c = '#').length
  if 1 ≤ k ∧ k ≤ 6 then
    match line.data.drop k with
    | [] => some (.heading k "")
    | c :: rest =>
      if c = ' ' then some (.heading k (String.mk (trimChars rest))) else none
  else none

/-- Close the paragraph accumulated in reverse line order, if any. -/
def closePara : Option (List String) → List MdBlock
  | some ls => [.para (String.intercalate "\n" ls.reverse)]
  | none => []

/-- Modelled from the spec: group lines into heading and paragraph blocks,
blank lines separating blocks; the accumulator holds the open paragraph's
lines in reverse order. -/
def parseBlocksAux : Option (List String) → List String → List MdBlock
  | acc, [] => closePara acc
  | acc, l :: rest =>
    if isBlankLine l then closePara acc ++ parseBlocksAux none rest
    else
      match headingOfLine l with
      | some b => closePara acc ++ (b :: parseBlocksAux none rest)
      | none => parseBlocksAux (some (l :: acc.getD [])) rest

/-- Split on newline characters, as JS `content.split("\n")`. -/
def splitNewlinesAux : List Char → List Char → List String
  | acc, [] => [String.mk acc.reverse]
  | acc, c :: cs =>
    if c = '\n' then String.mk acc.reverse :: splitNewlinesAux [] cs
    else splitNewlinesAux (c :: acc) cs

/-- Modelled from the spec: `md.parse` — tokenize the document into the
heading/paragraph token stream. -/
def mdParse (content : String) : List Token :=
  mdTokenize (parseBlocksAux none (splitNewlinesAux [] content.data))

/-- Modelled from the spec (§4.3): the anchor id assigned to a rendered
heading is the shared slugify of the heading's inline content. -/
def anchorIdOf (content : String) : String := slugify content

/-- Modelled from the spec: render the token stream to HTML, headings
carrying their `id` attribute (via `anchorIdOf`). -/
def renderTokens : List Token → String
  | [] => ""
  | t :: rest =>
    (if t.type = "heading_open" then
      match rest with
      | u :: _ =>
        if u.type = "inline" then
          "<" ++ t.tag ++ " id=\"" ++ anchorIdOf u.content ++ "\">" ++
            u.content ++ "</" ++ t.tag ++ ">\n"
        else ""
      | [] => ""
    else if t.type = "paragraph_open" then
      match rest with
      | u :: _ => if u.type = "inline" then "<p>" ++ u.content ++ "</p>\n" else ""
      | [] => ""
    else "") ++ renderTokens rest

/-- The `(level, id)` pairs of the rendered headings, in order — the `id`
attributes `renderTokens` emits, computed by the same `anchorIdOf`. -/
def renderedHeadingIds : List Token → List (Nat × String)
  | [] => []
  | t :: rest =>
    (if t.type = "heading_open" then
      match rest with
      | u :: _ =>
        if u.type = "inline" then [(headingTagLevel t.tag, anchorIdOf u.content)]
        else []
      | [] => []
    else []) ++ renderedHeadingIds rest

/-- The call `md.render(content)`: the library renders the parse of the raw input
(modelled from the spec as the pure composition of the two). -/
def mdRender (content : String) : String := renderTokens (mdParse content)

/-- The result record of `parseMarkdown`: `{html, toc, title}`. -/
structure MarkdownResult where
  html : String
  toc : List TocEntry
  title : Option String
deriving DecidableEq

/-- Function `parseMarkdown` (`markdown.ts:87-99`): parse to tokens, extract the
TOC and title from them, render the HTML. -/
def parseMarkdown (content : String) : MarkdownResult :=
  let tokens := mdParse content
  let toc := extractToc tokens
  let title := extractTitle tokens
  let html := mdRender content
  { html := html, toc := toc, title := title }

/-- A value computed against the markdown-it instance, together with the
number of tokenizations of the input (`md.parse` runs) performed while
computing it. -/
structure Traced (α : Type) where
  val : α
  parses : Nat

/-- Modelled from the spec: the explicit `md.parse(content, {})` call
(`markdown.ts:89`) performs one tokenization of the input. -/
def mdParseT (content : String) : Traced (List Token) :=
  ⟨mdParse content, 1⟩

/-- Modelled from the spec's collaborator contract: `md.render(src)` is
`renderer.render(md.parse(src, env), options, env)` — it tokenizes its
raw-string input again internally (one further parse) and renders that
stream; it does not receive the caller's already-computed tokens. -/
def mdRenderT (content : String) : Traced String :=
  ⟨renderTokens (mdParse content), 1⟩

/-- Function `parseMarkdown` (`markdown.ts:87-99`) with its two library
calls instrumented: the `md.parse` call at line 89 and the `md.render`
call at line 96, accumulating their tokenization counts. -/
def parseMarkdownT (content : String) : Traced MarkdownResult :=
  let tokens := mdParseT content
  let toc := extractToc tokens.val
  let title := extractTitle tokens.val
  let html := mdRenderT content
  ⟨⟨html.val, toc, title⟩, tokens.parses + html.parses⟩

/-- C3 counterexample — `parseMarkdown` does not parse the input into a
token stream exactly once: on the concrete input `"# Title"` it tokenizes
twice, once at the explicit `md.parse` call (`markdown.ts:89`) and once
inside `md.render(content)` (`markdown.ts:96`), which re-parses the raw
input rather than rendering the already-computed token stream. -/
theorem parseMarkdown_reparse_counterexample :
    (parseMarkdownT "# Title").parses = 2 ∧
    (parseMarkdownT "# Title").parses ≠ 1 :=
  ⟨rfl, by decide⟩

/-- C3 (amended) — `parseMarkdown` tokenizes its input twice, not once:
the explicit `md.parse` call for the toc/title scans plus the internal
tokenization of `md.render(content)`; because parsing is pure and
stateless the two streams coincide, so the returned html still equals the
rendering of the very same token stream from which toc and title were
extracted. -/
theorem parseMarkdown_one_stream_two_parses (content : String) :
    (parseMarkdownT content).parses = 2 ∧
    (parseMarkdownT content).val = parseMarkdown content ∧
    (parseMarkdown content).html = renderTokens (mdParse content) ∧
    (parseMarkdown content).toc = extractToc (mdParse content) ∧
    (parseMarkdown content).title = extractTitle (mdParse content) :=
  ⟨rfl, rfl, rfl, rfl, rfl⟩

theorem headingTagLevel_h (k : Nat) (h1 : 1 ≤ k) (h6 : k ≤ 6) :
    headingTagLevel ("h" ++ toString k) = k := by
  interval_cases k <;> decide

theorem htag_eq_h1_iff (k : Nat) (h1 : 1 ≤ k) (h6 : k ≤ 6) :
    ("h" ++ toString k = "h1") ↔ k = 1 := by
  interval_cases k <;> decide

theorem extractToc_heading_block (k : Nat) (txt : String) (rest : List Token)
    (h1 : 1 ≤ k) (h6 : k ≤ 6) :
    extractToc (blockTokens (.heading k txt) ++ rest) =
      (if 2 ≤ k ∧ k ≤ 3 then [(⟨tocSlug txt, txt, k⟩ : TocEntry)] else []) ++
        extractToc rest := by
  simp only [blockTokens, List.cons_append, List.nil_append, extractToc,
    headingTagLevel_h k h1 h6]
  by_cases hk : 2 ≤ k ∧ k ≤ 3
  · simp [hk]
  · simp [hk]

theorem extractToc_para_block (txt : String) (rest : List Token) :
    extractToc (blockTokens (.para txt) ++ rest) = extractToc rest := by
  simp [blockTokens, extractToc]

theorem extractTitle_heading_block (k : Nat) (txt : String) (rest : List Token)
    (h1 : 1 ≤ k) (h6 : k ≤ 6) :
    extractTitle (blockTokens (.heading k txt) ++ rest) =
      if k = 1 then some txt else extractTitle rest := by
  simp only [blockTokens, List.cons_append, List.nil_append, extractTitle]
  by_cases hk : k = 1
  · subst hk
    have h1tag : ("h" ++ toString (1 : Nat)) = "h1" := by decide
    simp [h1tag]
  · have hne : ¬("h" ++ toString k = "h1") := fun hcontr =>
      hk ((htag_eq_h1_iff k h1 h6).mp hcontr)
    simp [hne, hk]

theorem extractTitle_para_block (txt : String) (rest : List Token) :
    extractTitle (blockTokens (.para txt) ++ rest) = extractTitle rest := by
  simp [blockTokens, extractTitle]

theorem renderedHeadingIds_heading_block (k : Nat) (txt : String)
    (rest : List Token) (h1 : 1 ≤ k) (h6 : k ≤ 6) :
    renderedHeadingIds (blockTokens (.heading k txt) ++ rest) =
      (k, anchorIdOf txt) :: renderedHeadingIds rest := by
  simp only [blockTokens, List.cons_append, List.nil_append, renderedHeadingIds,
    headingTagLevel_h k h1 h6]
  simp

theorem renderedHeadingIds_para_block (txt : String) (rest : List Token) :
    renderedHeadingIds (blockTokens (.para txt) ++ rest) =
      renderedHeadingIds rest := by
  simp [blockTokens, renderedHeadingIds]

/-- Well-formedness of a parsed block: heading levels lie in 1..6. -/
def goodBlock : MdBlock → Prop
  | .heading k _ => 1 ≤ k ∧ k ≤ 6
  | .para _ => True

theorem headingOfLine_good {line : String} {b : MdBlock} :
    headingOfLine line = some b → goodBlock b := by
  intro h
  simp only [headingOfLine] at h
  split at h
  case isTrue hcond =>
    split at h
    · rw [← Option.some.inj h]
      exact hcond
    · split at h
      · rw [← Option.some.inj h]
        exact hcond
      · exact Option.noConfusion h
  case isFalse hcond => exact Option.noConfusion h

theorem closePara_good (acc : Option (List String)) (b : MdBlock)
    (h : b ∈ closePara acc) : goodBlock b := by
  cases acc with
  | none => simp [closePara] at h
  | some ls =>
    simp [closePara] at h
    rw [h]
    trivial

theorem parseBlocksAux_good :
    ∀ (lines : List String) (acc : Option (List String)) (b : MdBlock),
      b ∈ parseBlocksAux acc lines → goodBlock b := by
  intro lines
  induction lines with
  | nil =>
    intro acc b hb
    exact closePara_good acc b (by simpa [parseBlocksAux] using hb)
  | cons l rest ih =>
    intro acc b hb
    simp only [parseBlocksAux] at hb
    by_cases hbl : isBlankLine l = true
    · rw [if_pos hbl] at hb
      rcases List.mem_append.mp hb with h | h
      · exact closePara_good _ _ h
      · exact ih none b h
    · rw [if_neg hbl] at hb
      cases hh : headingOfLine l with
      | some blk =>
        rw [hh] at hb
        rcases List.mem_append.mp hb with h | h
        · exact closePara_good _ _ h
        · rcases List.mem_cons.mp h with h | h
          · exact h ▸ headingOfLine_good hh
          · exact ih none b h
      | none =>
        rw [hh] at hb
        exact ih _ b hb

theorem mdTokenize_cons (b : MdBlock) (bs : List MdBlock) :
    mdTokenize (b :: bs) = blockTokens b ++ mdTokenize bs := by
  simp [mdTokenize]

theorem extractToc_tokenize (blocks : List MdBlock)
    (hgood : ∀ b ∈ blocks, goodBlock b) :
    extractToc (mdTokenize blocks) =
      blocks.filterMap fun b =>
        match b with
        | .heading k t =>
          if 2 ≤ k ∧ k ≤ 3 then some (⟨tocSlug t, t, k⟩ : TocEntry) else none
        | .para _ => none := by
  induction blocks with
  | nil => rfl
  | cons b bs ih =>
    have hb := hgood b (List.mem_cons_self _ _)
    have hbs := fun x hx => hgood x (List.mem_cons_of_mem _ hx)
    rw [mdTokenize_cons]
    cases b with
    | heading k t =>
      rw [extractToc_heading_block k t _ hb.1 hb.2, ih hbs,
        List.filterMap_cons]
      by_cases hk : 2 ≤ k ∧ k ≤ 3
      · simp [hk]
      · simp [hk]
    | para t =>
      rw [extractToc_para_block, ih hbs, List.filterMap_cons]

theorem extractTitle_tokenize (blocks : List MdBlock)
    (hgood : ∀ b ∈ blocks, goodBlock b) :
    extractTitle (mdTokenize blocks) =
      (blocks.filterMap fun b =>
        match b with
        | .heading k t => if k = 1 then some t else none
        | .para _ => none).head? := by
  induction blocks with
  | nil => rfl
  | cons b bs ih =>
    have hb := hgood b (List.mem_cons_self _ _)
    have hbs := fun x hx => hgood x (List.mem_cons_of_mem _ hx)
    rw [mdTokenize_cons]
    cases b with
    | heading k t =>
      rw [extractTitle_heading_block k t _ hb.1 hb.2, List.filterMap_cons]
      by_cases hk : k = 1
      · simp [hk]
      · simp [hk, ih hbs]
    | para t =>
      rw [extractTitle_para_block, ih hbs, List.filterMap_cons]

theorem renderedHeadingIds_tokenize (blocks : List MdBlock)
    (hgood : ∀ b ∈ blocks, goodBlock b) :
    renderedHeadingIds (mdTokenize blocks) =
      blocks.filterMap fun b =>
        match b with
        | .heading k t => some (k, anchorIdOf t)
        | .para _ => none := by
  induction blocks with
  | nil => rfl
  | cons b bs ih =>
    have hb := hgood b (List.mem_cons_self _ _)
    have hbs := fun x hx => hgood x (List.mem_cons_of_mem _ hx)
    rw [mdTokenize_cons]
    cases b with
    | heading k t =>
      rw [renderedHeadingIds_heading_block k t _ hb.1 hb.2, ih hbs,
        List.filterMap_cons]
    | para t =>
      rw [renderedHeadingIds_para_block, ih hbs, List.filterMap_cons]

/-- The inlined TOC slug chain agrees with the shared slugify function. -/
theorem tocSlug_eq_slugify (s : String) : tocSlug s = slugify s := rfl

/-- C2 — For every input document, the sequence of `(level, id)` pairs of
the TOC entries equals the sequence of `(level, id-attribute)` pairs of
the rendered level-2/3 headings: every TOC entry's id matches the id
independently assigned to its heading in the HTML render (the anchor
assignment is modelled from the spec as the shared slugify of the
heading's inline content). -/
theorem toc_ids_roundtrip (content : String) :
    (extractToc (mdParse content)).map (fun e => (e.level, e.id)) =
      (renderedHeadingIds (mdParse content)).filter fun p =>
        decide (2 ≤ p.1 ∧ p.1 ≤ 3) := by
  have hgood : ∀ b ∈ parseBlocksAux none (splitNewlinesAux [] content.data),
      goodBlock b := fun b hb => parseBlocksAux_good _ none b hb
  have h1 : extractToc (mdParse content) =
      (parseBlocksAux none (splitNewlinesAux [] content.data)).filterMap
        fun b =>
          match b with
          | .heading k t =>
            if 2 ≤ k ∧ k ≤ 3 then some (⟨tocSlug t, t, k⟩ : TocEntry) else none
          | .para _ => none := extractToc_tokenize _ hgood
  have h2 : renderedHeadingIds (mdParse content) =
      (parseBlocksAux none (splitNewlinesAux [] content.data)).filterMap
        fun b =>
          match b with
          | .heading k t => some (k, anchorIdOf t)
          | .para _ => none := renderedHeadingIds_tokenize _ hgood
  rw [h1, h2]
  generalize parseBlocksAux none (splitNewlinesAux [] content.data) = blocks
  induction blocks with
  | nil => rfl
  | cons b bs ih =>
    cases b with
    | heading k t =>
      simp only [List.filterMap_cons]
      by_cases hk : 2 ≤ k ∧ k ≤ 3
      · rw [if_pos hk]
        simp only [List.map_cons, List.filter_cons]
        rw [ih, decide_eq_true hk, if_pos rfl]
        rfl
      · rw [if_neg hk]
        simp only [List.filter_cons]
        rw [ih, decide_eq_false hk, if_neg (by simp)]
    | para t => simpa using ih

/-- C5 — For every parsed document the TOC is exactly the level-2/3
headings in document order (level-1 and level-4..6 excluded) and the title
is the inline content of the first level-1 heading, absent if none exists;
on `"# Title\n\n## One\n\ncontent\n\n### Two\n"` the title is `"Title"`
and the TOC is `[{id:"one", text:"One", level:2},
{id:"two", text:"Two", level:3}]`. -/
theorem toc_title_extraction (content : String) :
    extractToc (mdParse content) =
      ((parseBlocksAux none (splitNewlinesAux [] content.data)).filterMap
        fun b =>
          match b with
          | .heading k t =>
            if 2 ≤ k ∧ k ≤ 3 then some (⟨tocSlug t, t, k⟩ : TocEntry) else none
          | .para _ => none) ∧
    extractTitle (mdParse content) =
      ((parseBlocksAux none (splitNewlinesAux [] content.data)).filterMap
        fun b =>
          match b with
          | .heading k t => if k = 1 then some t else none
          | .para _ => none).head? ∧
    (parseMarkdown "# Title\n\n## One\n\ncontent\n\n### Two\n").title =
      some "Title" ∧
    (parseMarkdown "# Title\n\n## One\n\ncontent\n\n### Two\n").toc =
      [⟨"one", "One", 2⟩, ⟨"two", "Two", 3⟩] := by
  have hgood : ∀ b ∈ parseBlocksAux none (splitNewlinesAux [] content.data),
      goodBlock b := fun b hb => parseBlocksAux_good _ none b hb
  exact ⟨extractToc_tokenize _ hgood, extractTitle_tokenize _ hgood,
    by decide, by decide⟩
